import Mathlib

/-!
Verification development for the magic-garden auto-buyer.

The Python sources (src/screen_capture.py, src/auto_buyer.py) are shallowly
embedded below.  Pure pixel-independent logic (OCR token matching, duplicate
suppression, contour filtering, the bounded buy loops, the supervisor state
machine) is translated directly; the OpenCV / tesseract / pyautogui calls are
opaque external services, so the embedding takes their outputs (OCR word boxes,
template matches, contours, per-iteration observations) as inputs.
-/

/-! ### Python string primitives

`lowerChar`/`pyLower` model `str.lower` (ASCII case folding, which is all the
sources rely on), `pyStrip` models `str.strip()`, `pyIn` models the Python
substring test `needle in hay`, and `pySplit` models `str.split()` (split on
whitespace runs, discarding empty pieces). -/

def lowerChar (c : Char) : Char :=
  if 'A' ≤ c && c ≤ 'Z' then Char.ofNat (c.toNat + 32) else c

def pyLower (s : String) : String :=
  ⟨s.data.map lowerChar⟩

def pyStrip (s : String) : String :=
  ⟨((s.data.dropWhile Char.isWhitespace).reverse.dropWhile Char.isWhitespace).reverse⟩

def prefOf : List Char → List Char → Bool
  | [], _ => true
  | _ :: _, [] => false
  | a :: p, b :: l => a == b && prefOf p l

def subOf : List Char → List Char → Bool
  | p, [] => prefOf p []
  | p, b :: l => prefOf p (b :: l) || subOf p l

def pyIn (needle hay : String) : Bool :=
  subOf needle.data hay.data

def splitWsAux : ℕ → List Char → List (List Char)
  | 0, _ => []
  | _ + 1, [] => []
  | fuel + 1, c :: rest =>
    if c.isWhitespace then splitWsAux fuel rest
    else (c :: rest.takeWhile (fun d => !d.isWhitespace)) ::
      splitWsAux fuel (rest.dropWhile (fun d => !d.isWhitespace))

def splitWsChar (l : List Char) : List (List Char) :=
  splitWsAux l.length l

def pySplit (s : String) : List String :=
  (splitWsChar s.data).map (fun l => ⟨l⟩)

/-! ### ScreenCapture: OCR word boxes and text search (src/screen_capture.py)

Tesseract's `image_to_data` output (parallel arrays of word text and bounding
boxes) is modelled as a list of `OcrBox`.  `find_text` embeds
`ScreenCapture.find_text` (lines 155-229): grayscale/threshold preprocessing is
part of the opaque OCR service, the matching logic over the detected words is
translated directly. -/

structure OcrBox where
  text : String
  left : Int
  top : Int
  width : Int
  height : Int
deriving DecidableEq, Inhabited

def fuzzyPatterns (search_words : List String) : List String :=
  search_words.flatMap fun word =>
    if 4 ≤ word.length then
      word :: (List.range' 1 (min 4 (word.length - 2) - 1)).filterMap fun start =>
        let substring : String := ⟨word.data.drop start⟩
        if 4 ≤ substring.length then some substring else none
    else []

def acceptsWord (search_lower : String) (patterns : List String) (fuzzy : Bool)
    (text : String) : Bool :=
  pyIn search_lower text || pyIn text search_lower ||
    (fuzzy && patterns.any fun pattern =>
      (decide (4 ≤ pattern.length) && pyIn pattern text) ||
      (decide (4 ≤ text.length) && pyIn text pattern))

def findTextSingle (search_lower : String) (patterns : List String) (fuzzy : Bool) :
    List OcrBox → Option (Int × Int × Int × Int)
  | [] => none
  | w :: rest =>
    let text := pyLower (pyStrip w.text)
    if text = "" ∨ text.length < 3 then findTextSingle search_lower patterns fuzzy rest
    else if acceptsWord search_lower patterns fuzzy text then
      some (w.left, w.top, w.width, w.height)
    else findTextSingle search_lower patterns fuzzy rest

def windowCombined (words : List OcrBox) (i ws : ℕ) : String :=
  pyLower (String.intercalate " "
    ((List.range ws).map fun j => pyStrip ((words.getD (i + j) default).text)))

def intFoldMin (l : List Int) : Int :=
  match l with
  | [] => 0
  | a :: r => r.foldl min a

def intFoldMax (l : List Int) : Int :=
  match l with
  | [] => 0
  | a :: r => r.foldl max a

def windowBoxAt (words : List OcrBox) (i ws : ℕ) : Int × Int × Int × Int :=
  let x := (words.getD i default).left
  let y := intFoldMin ((List.range ws).map fun j => (words.getD (i + j) default).top)
  let last := words.getD (i + ws - 1) default
  let w := (last.left + last.width) - x
  let h := intFoldMax ((List.range ws).map fun j => (words.getD (i + j) default).height)
  (x, y, w, h)

def findTextMulti (words : List OcrBox) (search_lower : String) (searchWordCount : ℕ) :
    Option (Int × Int × Int × Int) :=
  let n := words.length
  (List.range' 2 (min (searchWordCount + 2) (n + 1) - 2)).findSome? fun ws =>
    (List.range (n + 1 - ws)).findSome? fun i =>
      if pyIn search_lower (windowCombined words i ws) then some (windowBoxAt words i ws)
      else none

def find_text (words : List OcrBox) (search_text : String) (fuzzy : Bool) :
    Option (Int × Int × Int × Int) :=
  let search_lower := pyLower search_text
  let search_words := pySplit search_lower
  let patterns := if fuzzy then fuzzyPatterns search_words else []
  match findTextSingle search_lower patterns fuzzy words with
  | some r => some r
  | none => findTextMulti words search_lower search_words.length

/-! ### ScreenCapture.find_shop_items_with_stock (lines 288-380)

Targets are iterated through the `target_patterns` dict, whose iteration order
is the insertion order of the `targets` list (duplicates collapse to one entry
with the same patterns, so `List.find?` over `targets` selects the same first
matching target). -/

def common_words : List String :=
  ["seed", "seeds", "pod", "pods", "bean", "beans", "egg", "eggs"]

def targetPatterns (target : String) : List String :=
  (pySplit (pyLower target)).flatMap fun word =>
    if decide (4 ≤ word.length) && !(common_words.contains word) then
      word :: (List.range' 1 (min 3 (word.length - 3) - 1)).filterMap fun start =>
        let substring : String := ⟨word.data.drop start⟩
        if decide (4 ≤ substring.length) && !(common_words.contains substring) then
          some substring
        else none
    else []

def stockPositions (words : List OcrBox) : List Int :=
  words.filterMap fun w =>
    let text := pyLower (pyStrip w.text)
    if pyIn "stock" text || pyIn "stoc" text then some (w.top + w.height.fdiv 2) else none

def matchesTarget (text target : String) : Bool :=
  let patterns := targetPatterns target
  let target_words := pySplit (pyLower target)
  let first_word := target_words.headD ""
  let exactMatch : Bool :=
    if first_word.length = 4 then text == first_word
    else
      decide (5 ≤ text.length) && decide (5 ≤ first_word.length) &&
        (pyIn first_word text || pyIn text first_word)
  exactMatch || patterns.any fun pattern =>
    (decide (5 ≤ pattern.length) &&
      (pyIn pattern text || (decide (5 ≤ text.length) && pyIn text pattern))) ||
    (pattern.length == 4 && text == pattern)

def rowHasStock (stock_positions : List Int) (item_y : Int) : Bool :=
  stock_positions.any fun stock_y => decide ((stock_y - item_y).natAbs < 60)

def matchEntry (stock_positions : List Int) (targets : List String) (w : OcrBox) :
    List (String × Int × Int) :=
  let text := pyLower (pyStrip w.text)
  if text = "" ∨ text.length < 4 then []
  else
    let item_y := w.top + w.height.fdiv 2
    let item_x := w.left + w.width.fdiv 2
    if rowHasStock stock_positions item_y then
      match targets.find? (fun target => matchesTarget text target) with
      | some target => [(target, item_x, item_y)]
      | none => []
    else []

def find_shop_items_with_stock (words : List OcrBox) (targets : List String) :
    List (String × Int × Int) :=
  words.flatMap (matchEntry (stockPositions words) targets)

/-! ### ScreenCapture: template matches and duplicate suppression (lines 96-146)

`find_all_matches` thresholds the normalized cross-correlation surface (an
opaque OpenCV computation) and then deduplicates.  The embedding starts from
the thresholded candidate list.  Python computes
`dist = (dx**2 + dy**2)**0.5` and tests `dist < min_distance`; for integer
offsets and a nonnegative bound this is equivalent to the exact integer test
`dx^2 + dy^2 < min_distance^2` used here (square root is monotone and the
squares are exactly representable). -/

structure TMatch where
  x : Int
  y : Int
  conf : ℚ
deriving DecidableEq

def distLt (m existing : TMatch) (min_distance : ℕ) : Bool :=
  decide ((m.x - existing.x) ^ 2 + (m.y - existing.y) ^ 2 < (min_distance : Int) ^ 2)

def insertDescBy {α : Type} (key : α → ℚ) (a : α) : List α → List α
  | [] => [a]
  | b :: l => if key a < key b then b :: insertDescBy key a l else a :: b :: l

/-- Python's stable `sorted(..., key=key, reverse=True)` as an insertion sort:
an earlier element passes a later one only when its key is strictly larger, so
elements with equal keys keep their original relative order. -/
def sortDescBy {α : Type} (key : α → ℚ) : List α → List α
  | [] => []
  | a :: l => insertDescBy key a (sortDescBy key l)

def sortByConfDesc (l : List TMatch) : List TMatch :=
  sortDescBy (fun m => m.conf) l

def greedyKeep (min_distance : ℕ) : List TMatch → List TMatch → List TMatch
  | acc, [] => acc
  | acc, m :: rest =>
    if acc.any fun existing => distLt m existing min_distance then
      greedyKeep min_distance acc rest
    else greedyKeep min_distance (acc ++ [m]) rest

def remove_duplicates (ms : List TMatch) (min_distance : ℕ) : List TMatch :=
  match ms with
  | [] => []
  | _ :: _ => greedyKeep min_distance [] (sortByConfDesc ms)

def find_all_matches (thresholded : List TMatch) : List TMatch :=
  remove_duplicates thresholded 20

/-! ### ScreenCapture.find_green_buttons (lines 421-510)

The HSV masking and contour extraction are opaque OpenCV services; the
embedding starts from the extracted contours (each with its `cv2.contourArea`
value and bounding rectangle).  Python's float thresholds `1.8` and `6.0` and
the float `scale` arithmetic are modelled exactly over ℚ; no bounding box of
screen-sized integers can fall inside the sub-ulp gap between the float
constant 1.8 and the rational 9/5, so the comparisons agree. -/

structure Contour where
  area : ℚ
  x : ℕ
  y : ℕ
  w : ℕ
  h : ℕ
deriving DecidableEq

def passesButtonFilter (screen_w screen_h : ℕ) (c : Contour) : Bool :=
  let min_area : ℕ := 200 * (screen_w * screen_h) / (645 * 534)
  let max_area : ℕ := 20000 * (screen_w * screen_h) / (645 * 534)
  let min_width : ℕ := 40 * screen_w / 645
  let aspect_ratio : ℚ := if c.h = 0 then 0 else (c.w : ℚ) / (c.h : ℚ)
  decide ((min_area : ℚ) < c.area) && decide (c.area < (max_area : ℚ)) &&
    (decide ((9 : ℚ) / 5 < aspect_ratio) && decide (aspect_ratio < 6) &&
      decide (min_width < c.w))

def buttonCandidates (screen_w screen_h : ℕ) (contours : List Contour) : List (ℕ × ℕ × ℚ) :=
  (contours.filter (passesButtonFilter screen_w screen_h)).map fun c =>
    (c.x + c.w / 2, c.y + c.h / 2, c.area)

def sortByAreaDesc (l : List (ℕ × ℕ × ℚ)) : List (ℕ × ℕ × ℚ) :=
  sortDescBy (fun b => b.2.2) l

def find_green_buttons (screen_w screen_h : ℕ) (contours : List Contour) : List (ℕ × ℕ) :=
  (sortByAreaDesc (buttonCandidates screen_w screen_h contours)).map fun b => (b.1, b.2.1)

/-! ### AutoBuyer buy loops (src/auto_buyer.py)

Per loop iteration the controller captures a frame and queries the detectors;
an iteration's external inputs are collected in `Obs`: the run/pause flags read
at the loop head, the frame captured at the loop head, and (for the legacy
tesseract loop, which captures twice per iteration) the frame captured after
the item click.  `Frame` records the detector outputs for one captured frame:
whether the "NO STOCK" text is found, `get_text_center` for the current target,
the `buy_button` template match, and `find_green_buttons`. -/

structure Frame where
  noStock : Bool
  itemPos : Option (Int × Int)
  buyButton : Option (Int × Int)
  greenButtons : List (Int × Int)
deriving DecidableEq, Inhabited

structure Obs where
  running : Bool
  paused : Bool
  frame : Frame
  frame2 : Frame
deriving DecidableEq, Inhabited

/-- Outcome of `_buy_until_no_stock_ocr`'s button-clicking loop (lines 432-485):
`stopped` = run/pause flag exit, `soldOut` = "No green buttons - sold out",
`noValidButton` = "No buy button found (sold out or closed)", `capped` =
"Reached max attempts" warning after the `for attempt in range(max_attempts)`
loop is exhausted. -/
inductive BuyEnd
  | stopped
  | soldOut
  | noValidButton
  | capped
deriving DecidableEq

/-- Lines 451-453: keep green buttons below the item and near it horizontally. -/
def validButtons (relX relY maxYDist maxXDist : Int) (gb : List (Int × Int)) :
    List (Int × Int) :=
  gb.filter fun b =>
    decide (relY < b.2) && decide (b.2 < relY + maxYDist) &&
      decide (((b.1 - relX).natAbs : Int) < maxXDist)

/-- Lines 444-446: `scale = region[3] / 534` (or 1.0 without a region),
`max_y_dist = int(150 * scale)`, `max_x_dist = int(200 * scale)`. -/
def buyDistThresholds (regionHeight : Option ℕ) : Int × Int :=
  match regionHeight with
  | some h => ((150 * h / 534 : ℕ), (200 * h / 534 : ℕ))
  | none => (150, 200)

/-- The `for attempt in range(max_attempts)` loop of `_buy_until_no_stock_ocr`
(lines 432-485).  Arguments: the per-iteration observations, the item's
position `(relX, relY)` clicked once before this loop, the scaled distance
windows, the remaining attempts, the frame-time index, and the purchases made
so far (`items_purchased` delta).  Each iteration with a valid green button
clicks it and continues; all other cases exit the loop. -/
def buyLoopOcr (env : ℕ → Obs) (relX relY maxYDist maxXDist : Int) :
    ℕ → ℕ → ℕ → BuyEnd × ℕ
  | 0, _, purchased => (.capped, purchased)
  | rem + 1, t, purchased =>
    let o := env t
    if !o.running || o.paused then (.stopped, purchased)
    else if o.frame.greenButtons.isEmpty then (.soldOut, purchased)
    else if (validButtons relX relY maxYDist maxXDist o.frame.greenButtons).isEmpty then
      (.noValidButton, purchased)
    else buyLoopOcr env relX relY maxYDist maxXDist rem (t + 1) (purchased + 1)

/-- Outcome of the legacy tesseract loop `_buy_until_no_stock` (lines 327-399). -/
inductive LegacyEnd
  | stopped
  | noStockPre
  | itemNotFound
  | noStockPost
  | noBuyButton
  | capped
deriving DecidableEq

/-- `_buy_until_no_stock` (lines 327-399).  Each iteration: check flags, check
"NO STOCK" on a fresh capture, find and click the item (`items_detected` + 1),
re-capture after the settle delay, check "NO STOCK" again (returning without
any buy click if present), then click the `buy_button` template match
(`items_purchased` + 1) or exit.  Result: (exit reason, detected, purchased). -/
def buyUntilNoStock (env : ℕ → Obs) : ℕ → ℕ → ℕ → ℕ → LegacyEnd × ℕ × ℕ
  | 0, _, detected, purchased => (.capped, detected, purchased)
  | rem + 1, t, detected, purchased =>
    let o := env t
    if !o.running || o.paused then (.stopped, detected, purchased)
    else if o.frame.noStock then (.noStockPre, detected, purchased)
    else
      match o.frame.itemPos with
      | none => (.itemNotFound, detected, purchased)
      | some _ =>
        if o.frame2.noStock then (.noStockPost, detected + 1, purchased)
        else
          match o.frame2.buyButton with
          | some _ => buyUntilNoStock env rem (t + 1) (detected + 1) (purchased + 1)
          | none => (.noBuyButton, detected + 1, purchased)

/-- `self.config.get("max_buy_attempts", 50)` (lines 330 and 404). -/
def getMaxBuyAttempts (configured : Option ℕ) : ℕ :=
  configured.getD 50

/-- One item of the per-page loop of `_buy_all_items_in_shop_with_scroll`
(lines 304-312): the run/pause flags read before the item, the observation
stream its `_buy_until_no_stock_ocr` call consumes, and the item position
passed as `item_pos`. -/
structure ItemRun where
  flagRunning : Bool
  flagPaused : Bool
  env : ℕ → Obs
  pos : Int × Int

/-- The `for target, rel_x, rel_y in shop_items` loop (lines 304-312): before
each item the run/pause flags are checked (returning early), then the bounded
buy loop runs for that item.  Returns (items processed, final purchase
count). -/
def processItems (maxYDist maxXDist : Int) (maxAttempts : ℕ) :
    List ItemRun → ℕ → ℕ × ℕ
  | [], purchased => (0, purchased)
  | it :: rest, purchased =>
    if !it.flagRunning || it.flagPaused then (0, purchased)
    else
      let r := buyLoopOcr it.env it.pos.1 it.pos.2 maxYDist maxXDist maxAttempts 0 purchased
      let next := processItems maxYDist maxXDist maxAttempts rest r.2
      (next.1 + 1, next.2)

/-! ### AutoBuyer run loop and supervisor lifecycle (src/auto_buyer.py)

`_run_loop` (lines 167-182) runs `while self.running`: a paused iteration just
sleeps, otherwise `_shop_cycle` runs inside `try/except` — an exception is
caught, logged, and the loop sleeps the scan interval and goes round again.
The external inputs of iteration `i` are the `running`/`paused` flags read at
its head and the outcome of its `_shop_cycle` call (`Except` models the Python
exception).  `runLoop` returns the observable event log; `fuel` bounds how many
iterations are observed (the Python loop is unbounded until `running` is
cleared). -/

structure LoopEnv where
  running : ℕ → Bool
  paused : ℕ → Bool
  cycle : ℕ → Except String Unit

inductive LoopEvent
  | pausedTick (i : ℕ)
  | cycleOk (i : ℕ)
  | cycleError (i : ℕ) (msg : String)
deriving DecidableEq

def runLoop (env : LoopEnv) : ℕ → ℕ → List LoopEvent
  | 0, _ => []
  | fuel + 1, i =>
    if !(env.running i) then []
    else if env.paused i then .pausedTick i :: runLoop env fuel (i + 1)
    else
      match env.cycle i with
      | .ok _ => .cycleOk i :: runLoop env fuel (i + 1)
      | .error e => .cycleError i e :: runLoop env fuel (i + 1)

/-- Supervisor state owned by the `AutoBuyer` object: the `running`/`paused`
flags, the background worker handle `_thread` (worker ids stand in for thread
objects; `spawned` counts `threading.Thread(...).start()` calls), the stats
counters, and `game_region`. -/
structure BuyerState where
  running : Bool
  paused : Bool
  thread : Option ℕ
  nextThreadId : ℕ
  spawned : ℕ
  itemsDetected : ℕ
  itemsPurchased : ℕ
  gameRegion : Option (Int × Int × Int × Int)
deriving DecidableEq

/-- `AutoBuyer.start` (lines 91-115): returns immediately if already running;
otherwise sets the flags, reads `monitor_region` from config, and launches one
background worker.  The startup grace sleep and log lines do not change
state. -/
def buyerStart (cfgRegion : Option (Int × Int × Int × Int)) (s : BuyerState) : BuyerState :=
  if s.running then s
  else
    { s with
      running := true
      paused := false
      gameRegion := cfgRegion
      thread := some s.nextThreadId
      nextThreadId := s.nextThreadId + 1
      spawned := s.spawned + 1 }

/-- `AutoBuyer.stop` (lines 153-159): clears `running`, joins the worker with a
bounded timeout, clears `_thread`.  Stats are untouched. -/
def buyerStop (s : BuyerState) : BuyerState :=
  { s with running := false, thread := none }

/-! ### Helper lemmas about the string primitives -/

theorem prefOf_iff : ∀ p l : List Char, prefOf p l = true ↔ ∃ t, l = p ++ t := by
  intro p
  induction p with
  | nil => intro l; simp [prefOf]
  | cons a p ih =>
    intro l
    cases l with
    | nil => simp [prefOf]
    | cons b l =>
      simp only [prefOf, Bool.and_eq_true, beq_iff_eq, ih]
      constructor
      · rintro ⟨rfl, t, rfl⟩; exact ⟨t, rfl⟩
      · rintro ⟨t, ht⟩
        cases ht
        exact ⟨rfl, t, rfl⟩

theorem subOf_iff : ∀ p l : List Char, subOf p l = true ↔ ∃ s t, l = s ++ p ++ t := by
  intro p l
  induction l with
  | nil =>
    simp only [subOf, prefOf_iff]
    constructor
    · rintro ⟨t, ht⟩; exact ⟨[], t, by simpa using ht⟩
    · rintro ⟨s, t, h⟩
      rcases List.append_eq_nil.mp (List.append_eq_nil.mp h.symm).1 with ⟨hs, hp⟩
      exact ⟨t, by simp [hp, (List.append_eq_nil.mp h.symm).2, hs]⟩
  | cons b l ih =>
    simp only [subOf, Bool.or_eq_true, prefOf_iff, ih]
    constructor
    · rintro (⟨t, ht⟩ | ⟨s, t, ht⟩)
      · exact ⟨[], t, by simpa using ht⟩
      · exact ⟨b :: s, t, by simp [ht]⟩
    · rintro ⟨s, t, ht⟩
      cases s with
      | nil => exact Or.inl ⟨t, by simpa using ht⟩
      | cons c s =>
        right
        refine ⟨s, t, ?_⟩
        have := ht
        simp only [List.cons_append] at this
        exact (List.cons.injEq _ _ _ _ ▸ this).2

theorem subOf_trans {a b c : List Char} (h1 : subOf a b = true) (h2 : subOf b c = true) :
    subOf a c = true := by
  rcases (subOf_iff b c).mp h2 with ⟨s2, t2, rfl⟩
  rcases (subOf_iff a b).mp h1 with ⟨s1, t1, hb⟩
  exact (subOf_iff a _).mpr ⟨s2 ++ s1, t1 ++ t2, by simp [hb]⟩

theorem subOf_length_le {p l : List Char} (h : subOf p l = true) : p.length ≤ l.length := by
  rcases (subOf_iff p l).mp h with ⟨s, t, rfl⟩
  simp only [List.length_append]
  omega

theorem subOf_drop (l : List Char) (k : ℕ) : subOf (l.drop k) l = true := by
  refine (subOf_iff _ _).mpr ⟨l.take k, [], ?_⟩
  simp

theorem splitWsAux_subOf : ∀ (fuel : ℕ) (l w : List Char),
    w ∈ splitWsAux fuel l → subOf w l = true := by
  intro fuel
  induction fuel with
  | zero => intro l w h; simp [splitWsAux] at h
  | succ fuel ih =>
    intro l w h
    cases l with
    | nil => simp [splitWsAux] at h
    | cons c rest =>
      by_cases hws : c.isWhitespace
      · simp only [splitWsAux, hws, if_pos] at h
        have := ih rest w h
        rcases (subOf_iff _ _).mp this with ⟨s, t, rfl⟩
        exact (subOf_iff _ _).mpr ⟨c :: s, t, by simp⟩
      · simp only [splitWsAux, hws, if_neg, List.mem_cons, Bool.false_eq_true,
          not_false_eq_true] at h
        rcases h with rfl | h
        · refine (subOf_iff _ _).mpr ⟨[], rest.dropWhile (fun d => !d.isWhitespace), ?_⟩
          simp [List.takeWhile_append_dropWhile]
        · have h1 := ih _ w h
          have h2 : subOf (rest.dropWhile (fun d => !d.isWhitespace)) (c :: rest) = true := by
            refine (subOf_iff _ _).mpr ⟨c :: rest.takeWhile (fun d => !d.isWhitespace), [], ?_⟩
            simp [List.takeWhile_append_dropWhile]
          exact subOf_trans h1 h2

theorem pySplit_subOf {s : String} {w : String} (h : w ∈ pySplit s) :
    subOf w.data s.data = true := by
  rcases List.mem_map.mp h with ⟨l, hl, rfl⟩
  exact splitWsAux_subOf _ _ _ hl


/-! ### Helper lemmas about the descending insertion sort -/

theorem insertDescBy_perm {α : Type} (key : α → ℚ) (a : α) :
    ∀ l, (insertDescBy key a l).Perm (a :: l) := by
  intro l
  induction l with
  | nil => rfl
  | cons b l ih =>
    unfold insertDescBy
    split
    · exact (ih.cons b).trans (List.Perm.swap a b l)
    · rfl

theorem sortDescBy_perm {α : Type} (key : α → ℚ) :
    ∀ l, (sortDescBy key l).Perm l := by
  intro l
  induction l with
  | nil => rfl
  | cons a l ih => exact (insertDescBy_perm key a _).trans (ih.cons a)

theorem insertDescBy_pairwise {α : Type} (key : α → ℚ) (a : α) :
    ∀ {l}, List.Pairwise (fun u v => key v ≤ key u) l →
      List.Pairwise (fun u v => key v ≤ key u) (insertDescBy key a l) := by
  intro l
  induction l with
  | nil => intro _; simp [insertDescBy]
  | cons b l ih =>
    intro h
    rcases List.pairwise_cons.mp h with ⟨hb, hl⟩
    unfold insertDescBy
    split
    · rename_i hab
      refine List.pairwise_cons.mpr ⟨?_, ih hl⟩
      intro x hx
      rcases List.mem_cons.mp ((insertDescBy_perm key a l).mem_iff.mp hx) with rfl | hmem
      · exact hab.le
      · exact hb x hmem
    · rename_i hab
      refine List.pairwise_cons.mpr ⟨?_, h⟩
      intro x hx
      rcases List.mem_cons.mp hx with rfl | h'
      · exact not_lt.mp hab
      · exact (hb x h').trans (not_lt.mp hab)

theorem sortDescBy_pairwise {α : Type} (key : α → ℚ) (l : List α) :
    List.Pairwise (fun u v => key v ≤ key u) (sortDescBy key l) := by
  induction l with
  | nil => simp [sortDescBy]
  | cons a l ih => exact insertDescBy_pairwise key a ih

theorem insertDescBy_eq_cons {α : Type} (key : α → ℚ) (a : α) (l : List α)
    (h : ∀ b ∈ l, key b < key a) : insertDescBy key a l = a :: l := by
  cases l with
  | nil => rfl
  | cons b l =>
    unfold insertDescBy
    rw [if_neg (asymm (h b (List.mem_cons_self b l)))]

/-! ### Helper lemmas about the greedy duplicate filter -/

theorem greedyKeep_mem (d : ℕ) :
    ∀ (l acc : List TMatch) (x : TMatch), x ∈ greedyKeep d acc l → x ∈ acc ∨ x ∈ l := by
  intro l
  induction l with
  | nil => intro acc x h; exact Or.inl h
  | cons m rest ih =>
    intro acc x h
    unfold greedyKeep at h
    split at h
    · rcases ih acc x h with h' | h'
      · exact Or.inl h'
      · exact Or.inr (List.mem_cons_of_mem m h')
    · rcases ih (acc ++ [m]) x h with h' | h'
      · rcases List.mem_append.mp h' with h'' | h''
        · exact Or.inl h''
        · exact Or.inr (List.mem_cons.mpr (Or.inl (List.mem_singleton.mp h'')))
      · exact Or.inr (List.mem_cons_of_mem m h')

theorem greedyKeep_pairwise (d : ℕ) :
    ∀ (l acc : List TMatch),
      List.Pairwise (fun u v => distLt v u d = false) acc →
      List.Pairwise (fun u v => distLt v u d = false) (greedyKeep d acc l) := by
  intro l
  induction l with
  | nil => intro acc h; exact h
  | cons m rest ih =>
    intro acc h
    unfold greedyKeep
    split
    · exact ih acc h
    · rename_i hg
      apply ih
      refine List.pairwise_append.mpr ⟨h, by simp, ?_⟩
      intro a ha b hb
      rcases List.mem_singleton.mp hb with rfl
      have := List.any_eq_false.mp (by simpa using hg) a ha
      simpa using this

theorem greedyKeep_all_close (d : ℕ) (m : TMatch) :
    ∀ l, (∀ r ∈ l, distLt r m d = true) → greedyKeep d [m] l = [m] := by
  intro l
  induction l with
  | nil => intro _; rfl
  | cons r rest ih =>
    intro h
    unfold greedyKeep
    rw [if_pos]
    · exact ih fun x hx => h x (List.mem_cons_of_mem r hx)
    · simpa using h r (List.mem_cons_self r rest)

/-! ### Claim theorems -/

/-- C4 (amended): `find_all_matches` deduplicates via `remove_duplicates`,
which sorts candidates by descending confidence and greedily keeps a candidate
only if its Euclidean distance to every already-kept candidate is AT LEAST the
minimum separation (20px by default): every returned match is one of the
inputs, returned matches are pairwise no closer than the separation, and when
every other candidate lies strictly within the separation of the unique
highest-confidence candidate, exactly that candidate is returned. -/
theorem remove_duplicates_suppression :
    (∀ (ms : List TMatch) (x : TMatch), x ∈ find_all_matches ms → x ∈ ms) ∧
    (∀ (ms : List TMatch) (d : ℕ),
      List.Pairwise (fun u v => distLt v u d = false) (remove_duplicates ms d)) ∧
    (∀ (m : TMatch) (others : List TMatch) (d : ℕ),
      (∀ o ∈ others, o.conf < m.conf) →
      (∀ o ∈ others, distLt o m d = true) →
      remove_duplicates (m :: others) d = [m]) := by
  have hmem : ∀ (ms : List TMatch) (d : ℕ) (x : TMatch),
      x ∈ remove_duplicates ms d → x ∈ ms := by
    intro ms d x h
    cases ms with
    | nil => simp [remove_duplicates] at h
    | cons a l =>
      rcases greedyKeep_mem d _ _ _ h with hmem | hmem
      · simp at hmem
      · have : x ∈ sortDescBy (fun m => m.conf) (a :: l) := hmem
        exact (sortDescBy_perm (fun m => m.conf) (a :: l)).mem_iff.mp this
  refine ⟨fun ms x h => hmem ms 20 x h, ?_, ?_⟩
  · intro ms d
    cases ms with
    | nil => simp [remove_duplicates]
    | cons a l => exact greedyKeep_pairwise d _ [] (by simp)
  · intro m others d hconf hclose
    have hperm := sortDescBy_perm (fun m => m.conf) others
    have hsort : sortByConfDesc (m :: others) = m :: sortDescBy (fun m => m.conf) others := by
      show sortDescBy (fun m => m.conf) (m :: others) = _
      rw [sortDescBy]
      exact insertDescBy_eq_cons (fun m => m.conf) m _
        fun b hb => hconf b (hperm.mem_iff.mp hb)
    show greedyKeep d [] (sortByConfDesc (m :: others)) = [m]
    rw [hsort]
    unfold greedyKeep
    rw [if_neg (by simp)]
    exact greedyKeep_all_close d m _ fun r hr => hclose r (hperm.mem_iff.mp hr)

/-- C4 witness: applying the suppression theorem at a concrete input — a top
candidate at (100, 100) with two lower-confidence candidates inside the 20px
radius collapses to exactly the top candidate. -/
theorem remove_duplicates_suppression_witness :
    remove_duplicates [⟨100, 100, 9/10⟩, ⟨105, 100, 7/10⟩, ⟨100, 110, 8/10⟩] 20 =
      [⟨100, 100, 9/10⟩] :=
  remove_duplicates_suppression.2.2 ⟨100, 100, 9/10⟩ [⟨105, 100, 7/10⟩, ⟨100, 110, 8/10⟩] 20
    (by norm_num) (by decide)

/-- C4 counterexample: the claim's consequence fails — the candidates (2,0) and
(38,0) both lie strictly within the 20px minimum-distance radius of the single
position (20,0), yet BOTH are returned (their pairwise distance is ≥ 20); and a
candidate at distance exactly 20 from a kept one, which does not EXCEED the
separation, is nevertheless kept. -/
theorem remove_duplicates_counterexample :
    (remove_duplicates [⟨2, 0, 9/10⟩, ⟨38, 0, 4/5⟩] 20).length = 2 ∧
    distLt ⟨2, 0, 9/10⟩ ⟨20, 0, 0⟩ 20 = true ∧
    distLt ⟨38, 0, 4/5⟩ ⟨20, 0, 0⟩ 20 = true ∧
    (remove_duplicates [⟨0, 0, 9/10⟩, ⟨20, 0, 4/5⟩] 20).length = 2 ∧
    ((0 - 20 : Int) ^ 2 + (0 - 0 : Int) ^ 2 = 20 ^ 2) := by
  refine ⟨?_, by decide, by decide, ?_, by decide⟩ <;>
    norm_num [remove_duplicates, sortByConfDesc, sortDescBy, insertDescBy, greedyKeep, distLt]

/-- C7: `find_green_buttons` returns only centers of green contours whose
bounding-box aspect ratio is strictly between 1.8 and 6.0, whose width exceeds
the resolution-scaled minimum, and whose contour area lies strictly inside the
resolution-scaled window; the kept candidates are sorted by descending contour
area before the centers are returned; at the 645x534 reference resolution a
rectangle of ratio 2.5 and area 1000 is returned while a square of ratio 1.0
and the same area is rejected. -/
theorem find_green_buttons_filter_and_sort :
    (∀ (W H : ℕ) (contours : List Contour) (p : ℕ × ℕ),
      p ∈ find_green_buttons W H contours →
      ∃ c ∈ contours, c.h ≠ 0 ∧
        ((200 * (W * H) / (645 * 534) : ℕ) : ℚ) < c.area ∧
        c.area < ((20000 * (W * H) / (645 * 534) : ℕ) : ℚ) ∧
        (9 : ℚ) / 5 < (c.w : ℚ) / (c.h : ℚ) ∧ ((c.w : ℚ) / (c.h : ℚ)) < 6 ∧
        40 * W / 645 < c.w ∧
        p = (c.x + c.w / 2, c.y + c.h / 2)) ∧
    (∀ (W H : ℕ) (contours : List Contour),
      List.Pairwise (fun u v => v.2.2 ≤ u.2.2)
        (sortByAreaDesc (buttonCandidates W H contours))) ∧
    find_green_buttons 645 534 [⟨1000, 10, 10, 50, 20⟩, ⟨1000, 200, 10, 32, 32⟩] =
      [(35, 20)] := by
  refine ⟨?_, fun W H contours => sortDescBy_pairwise _ _, ?_⟩
  · intro W H contours p hp
    rcases List.mem_map.mp hp with ⟨b, hb, rfl⟩
    have hbs : b ∈ sortDescBy (fun b => b.2.2) (buttonCandidates W H contours) := hb
    have hb2 : b ∈ buttonCandidates W H contours :=
      (sortDescBy_perm (fun b => b.2.2) _).mem_iff.mp hbs
    rcases List.mem_map.mp hb2 with ⟨c, hc, rfl⟩
    rcases List.mem_filter.mp hc with ⟨hcmem, hpass⟩
    refine ⟨c, hcmem, ?_⟩
    simp only [passesButtonFilter, Bool.and_eq_true, decide_eq_true_eq] at hpass
    obtain ⟨⟨harea1, harea2⟩, ⟨hr1, hr2⟩, hw⟩ := hpass
    have hh : c.h ≠ 0 := by
      intro h0
      rw [if_pos h0] at hr1
      norm_num at hr1
    rw [if_neg hh] at hr1 hr2
    exact ⟨hh, harea1, harea2, hr1, hr2, hw, rfl⟩
  · norm_num [find_green_buttons, buttonCandidates, sortByAreaDesc, sortDescBy,
      insertDescBy, passesButtonFilter]

/-- C7 witness: the filter characterization applied to the returned center of
the concrete ratio-2.5 rectangle at the reference resolution. -/
theorem find_green_buttons_filter_and_sort_witness :
    ∃ c ∈ ([⟨1000, 10, 10, 50, 20⟩, ⟨1000, 200, 10, 32, 32⟩] : List Contour), c.h ≠ 0 ∧
      ((200 * (645 * 534) / (645 * 534) : ℕ) : ℚ) < c.area ∧
      c.area < ((20000 * (645 * 534) / (645 * 534) : ℕ) : ℚ) ∧
      (9 : ℚ) / 5 < (c.w : ℚ) / (c.h : ℚ) ∧ ((c.w : ℚ) / (c.h : ℚ)) < 6 ∧
      40 * 645 / 645 < c.w ∧
      ((35, 20) : ℕ × ℕ) = (c.x + c.w / 2, c.y + c.h / 2) :=
  find_green_buttons_filter_and_sort.1 645 534 _ (35, 20)
    (by rw [find_green_buttons_filter_and_sort.2.2]; exact List.mem_singleton.mpr rfl)

/-- C9: calling `start()` while already running is a no-op (no second worker,
no state change); two consecutive `start()` calls from a stopped state leave
exactly one newly spawned worker active; and neither `stop()` nor a subsequent
`start()` modifies the `items_detected`/`items_purchased` counters, which
persist across stop/start within one process. -/
theorem supervisor_start_noop_stats_persist :
    (∀ cfg s, s.running = true → buyerStart cfg s = s) ∧
    (∀ cfg s, s.running = false →
      buyerStart cfg (buyerStart cfg s) = buyerStart cfg s ∧
      (buyerStart cfg (buyerStart cfg s)).spawned = s.spawned + 1 ∧
      (buyerStart cfg (buyerStart cfg s)).thread = some s.nextThreadId) ∧
    (∀ s cfg,
      (buyerStop s).itemsDetected = s.itemsDetected ∧
      (buyerStop s).itemsPurchased = s.itemsPurchased ∧
      (buyerStart cfg (buyerStop s)).itemsDetected = s.itemsDetected ∧
      (buyerStart cfg (buyerStop s)).itemsPurchased = s.itemsPurchased) := by
  refine ⟨?_, ?_, ?_⟩
  · intro cfg s h
    simp [buyerStart, h]
  · intro cfg s h
    simp [buyerStart, h]
  · intro s cfg
    simp [buyerStart, buyerStop]

/-- C9 witness: the lifecycle facts applied at a concrete stopped state with
3 detections and 7 purchases recorded. -/
theorem supervisor_start_noop_stats_persist_witness :
    buyerStart none (buyerStart none ⟨false, false, none, 0, 0, 3, 7, none⟩) =
      buyerStart none ⟨false, false, none, 0, 0, 3, 7, none⟩ ∧
    (buyerStart none (buyerStart none ⟨false, false, none, 0, 0, 3, 7, none⟩)).spawned = 1 ∧
    (buyerStart none (buyerStop ⟨true, false, some 0, 1, 1, 3, 7, none⟩)).itemsPurchased = 7 :=
  ⟨(supervisor_start_noop_stats_persist.2.1 none ⟨false, false, none, 0, 0, 3, 7, none⟩ rfl).1,
   (supervisor_start_noop_stats_persist.2.1 none ⟨false, false, none, 0, 0, 3, 7, none⟩ rfl).2.1,
   (supervisor_start_noop_stats_persist.2.2 ⟨true, false, some 0, 1, 1, 3, 7, none⟩ none).2.2.2⟩

/-- C8: an exception raised by `_shop_cycle` during an active iteration of
`_run_loop` is caught and logged as a cycle-error event, after which the loop
proceeds to the next scan interval exactly like after a successful cycle; the
loop only ever exits because the `running` flag reads false, so a single failed
cycle never halts the run or terminates the background worker. -/
theorem runloop_catches_cycle_exceptions :
    (∀ (env : LoopEnv) (fuel i : ℕ) (e : String),
      env.running i = true → env.paused i = false → env.cycle i = .error e →
      runLoop env (fuel + 1) i = .cycleError i e :: runLoop env fuel (i + 1)) ∧
    (∀ (env : LoopEnv) (fuel i : ℕ), runLoop env (fuel + 1) i = [] →
      env.running i = false) := by
  constructor
  · intro env fuel i e hr hp hc
    simp [runLoop, hr, hp, hc]
  · intro env fuel i h
    cases hr : env.running i with
    | false => rfl
    | true =>
      exfalso
      simp only [runLoop, hr, Bool.not_true, Bool.false_eq_true, if_false] at h
      rcases hp : env.paused i with _ | _ <;> rw [hp] at h <;> simp at h
      rcases hc : env.cycle i with _ | _ <;> rw [hc] at h <;> simp at h

/-- C8 witness: a cycle that always raises is logged and the loop continues. -/
theorem runloop_catches_cycle_exceptions_witness :
    runLoop ⟨fun _ => true, fun _ => false, fun _ => .error "boom"⟩ 2 0 =
      .cycleError 0 "boom" ::
        runLoop ⟨fun _ => true, fun _ => false, fun _ => .error "boom"⟩ 1 1 :=
  runloop_catches_cycle_exceptions.1 ⟨fun _ => true, fun _ => false, fun _ => .error "boom"⟩
    1 0 "boom" rfl rfl rfl

/-- C10: in `find_shop_items_with_stock` each detected OCR word is paired with
at most one target per scan (the target loop breaks at the first match), so a
single token never contributes two `(target, x, y)` entries: the per-token
matcher emits at most one entry, and the full scan returns at most one entry
per detected word. -/
theorem token_pairs_at_most_one_target :
    (∀ (sp : List Int) (targets : List String) (w : OcrBox),
      (matchEntry sp targets w).length ≤ 1) ∧
    (∀ (words : List OcrBox) (targets : List String),
      (find_shop_items_with_stock words targets).length ≤ words.length) := by
  have h1 : ∀ (sp : List Int) (targets : List String) (w : OcrBox),
      (matchEntry sp targets w).length ≤ 1 := by
    intro sp targets w
    unfold matchEntry
    dsimp only
    split
    · simp
    · split
      · split <;> simp
      · simp
  refine ⟨h1, ?_⟩
  intro words targets
  unfold find_shop_items_with_stock
  suffices h : ∀ (ws : List OcrBox) (sp : List Int),
      (ws.flatMap (matchEntry sp targets)).length ≤ ws.length from h words _
  intro ws sp
  induction ws with
  | nil => simp
  | cons w rest ih =>
    simp only [List.flatMap_cons, List.length_append, List.length_cons]
    have := h1 sp targets w
    omega

/-- C2: the button-clicking loop of `_buy_until_no_stock_ocr` never performs
more than `max_buy_attempts` buy clicks (`config.get("max_buy_attempts", 50)`
defaults to 50); if sold-out never occurs (green buttons are always present)
and a valid buy button is always found, it performs exactly the cap many
buy-click iterations and then exits with the `.capped` logged warning; and the
cap is non-fatal: the caller's per-item loop still processes every remaining
target afterwards. -/
theorem buy_loop_bounded_by_cap :
    (∀ (env : ℕ → Obs) (relX relY yD xD : Int) (maxA t p : ℕ),
      (buyLoopOcr env relX relY yD xD maxA t p).2 ≤ p + maxA) ∧
    (∀ (env : ℕ → Obs) (relX relY yD xD : Int),
      (∀ s : ℕ, (env s).running = true ∧ (env s).paused = false ∧
        (env s).frame.greenButtons ≠ [] ∧
        validButtons relX relY yD xD (env s).frame.greenButtons ≠ []) →
      ∀ maxA t p, buyLoopOcr env relX relY yD xD maxA t p = (.capped, p + maxA)) ∧
    getMaxBuyAttempts none = 50 ∧
    (∀ (yD xD : Int) (maxA : ℕ) (items : List ItemRun) (p : ℕ),
      (∀ it ∈ items, it.flagRunning = true ∧ it.flagPaused = false) →
      (processItems yD xD maxA items p).1 = items.length) := by
  refine ⟨?_, ?_, rfl, ?_⟩
  · intro env relX relY yD xD maxA
    induction maxA with
    | zero => intro t p; simp [buyLoopOcr]
    | succ rem ih =>
      intro t p
      unfold buyLoopOcr
      dsimp only
      split
      · simp
      · split
        · simp
        · split
          · simp
          · have := ih (t + 1) (p + 1)
            omega
  · intro env relX relY yD xD henv maxA
    induction maxA with
    | zero => intro t p; simp [buyLoopOcr]
    | succ rem ih =>
      intro t p
      obtain ⟨hr, hp, hg, hv⟩ := henv t
      unfold buyLoopOcr
      rw [if_neg (by simp [hr, hp]), if_neg (by simpa [List.isEmpty_iff] using hg),
        if_neg (by simpa [List.isEmpty_iff] using hv)]
      rw [ih (t + 1) (p + 1)]
      congr 1
      omega
  · intro yD xD maxA items
    induction items with
    | nil => intro p _; rfl
    | cons it rest ih =>
      intro p h
      obtain ⟨hr, hp⟩ := h it (List.mem_cons_self it rest)
      unfold processItems
      rw [if_neg (by simp [hr, hp])]
      simp only [List.length_cons]
      rw [ih _ fun x hx => h x (List.mem_cons_of_mem it hx)]

/-- C2 witness: with a constant observation stream that always offers a valid
green button just below the item, a cap of 2 yields exactly 2 purchases and the
capped warning, and both items of a two-item page are processed. -/
theorem buy_loop_bounded_by_cap_witness :
    buyLoopOcr (fun _ => ⟨true, false, ⟨false, none, none, [(0, 5)]⟩, default⟩)
      0 0 150 200 2 0 0 = (.capped, 2) ∧
    (processItems 150 200 2
      [⟨true, false, fun _ => ⟨true, false, ⟨false, none, none, [(0, 5)]⟩, default⟩, (0, 0)⟩,
       ⟨true, false, fun _ => ⟨true, false, ⟨false, none, none, [(0, 5)]⟩, default⟩, (0, 0)⟩]
      0).1 = 2 :=
  ⟨buy_loop_bounded_by_cap.2.1 (fun _ => ⟨true, false, ⟨false, none, none, [(0, 5)]⟩, default⟩)
      0 0 150 200 (fun _ => ⟨rfl, rfl, by simp, by simp [validButtons]⟩) 2 0 0,
   buy_loop_bounded_by_cap.2.2.2 150 200 2 _ 0 (by simp)⟩

/-- C1 counterexample: the per-item buy loop actually invoked by the shop cycle
(`_buy_until_no_stock_ocr`, called from `_buy_all_items_in_shop_with_scroll`)
never consults a sold-out text marker: with the "NO STOCK" marker visible on
every captured frame but a valid green button present, the loop keeps clicking
the buy control (3 purchases in 3 attempts, ending in the cap) instead of
stopping as terminal success without clicking any buy control. -/
theorem buy_loop_marker_counterexample :
    buyLoopOcr (fun _ => ⟨true, false, ⟨true, none, none, [(0, 5)]⟩, default⟩)
      0 0 150 200 3 0 0 = (.capped, 3) ∧
    (⟨true, false, ⟨true, none, none, [(0, 5)]⟩, default⟩ : Obs).frame.noStock = true := by
  constructor
  · rfl
  · rfl

/-- C1 (amended): the per-item buy loop invoked by the shop cycle
(`_buy_until_no_stock_ocr`) clicks the item's position once BEFORE the loop;
on every iteration it re-captures and looks for green buy buttons, and stops
immediately as terminal success without clicking any buy control when no green
button — or no valid one below-and-near the item — is found; the check of the
"NO STOCK" text marker after clicking the item and re-capturing exists in the
legacy tesseract loop `_buy_until_no_stock`, which then stops immediately
without clicking any buy control. -/
theorem buy_loop_sold_out_checks :
    (∀ (env : ℕ → Obs) (relX relY yD xD : Int) (rem t p : ℕ),
      (env t).running = true → (env t).paused = false →
      (env t).frame.greenButtons = [] →
      buyLoopOcr env relX relY yD xD (rem + 1) t p = (.soldOut, p)) ∧
    (∀ (env : ℕ → Obs) (relX relY yD xD : Int) (rem t p : ℕ),
      (env t).running = true → (env t).paused = false →
      (env t).frame.greenButtons ≠ [] →
      validButtons relX relY yD xD (env t).frame.greenButtons = [] →
      buyLoopOcr env relX relY yD xD (rem + 1) t p = (.noValidButton, p)) ∧
    (∀ (env : ℕ → Obs) (rem t d p : ℕ),
      (env t).running = true → (env t).paused = false →
      (env t).frame.noStock = false →
      (env t).frame.itemPos.isSome = true →
      (env t).frame2.noStock = true →
      buyUntilNoStock env (rem + 1) t d p = (.noStockPost, d + 1, p)) := by
  refine ⟨?_, ?_, ?_⟩
  · intro env relX relY yD xD rem t p hr hp hg
    unfold buyLoopOcr
    dsimp only
    rw [if_neg (by simp [hr, hp]), if_pos (by simp [List.isEmpty_iff, hg])]
  · intro env relX relY yD xD rem t p hr hp hg hv
    unfold buyLoopOcr
    dsimp only
    rw [if_neg (by simp [hr, hp]), if_neg (by simpa [List.isEmpty_iff] using hg),
      if_pos (by simp [List.isEmpty_iff, hv])]
  · intro env rem t d p hr hp hns hitem hns2
    obtain ⟨q, hq⟩ := Option.isSome_iff_exists.mp hitem
    unfold buyUntilNoStock
    dsimp only
    rw [if_neg (by simp [hr, hp]), if_neg (by simp [hns]), hq]
    dsimp only
    rw [if_pos hns2]

/-- C1 witness: the amended behaviours applied at concrete observation
streams — a frame with no green buttons ends the active loop as sold-out with
no purchase, and in the legacy loop a post-click "NO STOCK" frame ends the
iteration with one detection and no purchase. -/
theorem buy_loop_sold_out_checks_witness :
    buyLoopOcr (fun _ => ⟨true, false, ⟨false, none, none, []⟩, default⟩)
      0 0 150 200 50 0 0 = (.soldOut, 0) ∧
    buyUntilNoStock
      (fun _ => ⟨true, false, ⟨false, some (3, 4), none, []⟩, ⟨true, none, none, []⟩⟩)
      50 0 0 0 = (.noStockPost, 1, 0) :=
  ⟨buy_loop_sold_out_checks.1 (fun _ => ⟨true, false, ⟨false, none, none, []⟩, default⟩)
      0 0 150 200 49 0 0 rfl rfl rfl,
   buy_loop_sold_out_checks.2.2
      (fun _ => ⟨true, false, ⟨false, some (3, 4), none, []⟩, ⟨true, none, none, []⟩⟩)
      49 0 0 0 rfl rfl rfl rfl rfl⟩

/-- C5 counterexample: the pairing threshold is strict, not "at most": a
"STOCK" marker token centered at y = 100 and a matching item token centered at
y = 160 — vertical distance exactly 60px, hence within "at most 60px" — do NOT
pair: the scan returns no items. -/
theorem stock_pairing_counterexample :
    find_shop_items_with_stock
      [⟨"STOCK", 0, 90, 40, 20⟩, ⟨"Carrot", 100, 150, 60, 20⟩] ["Carrot Seed"] = [] ∧
    ((100 : Int) - 160).natAbs ≤ 60 := by
  constructor
  · rfl
  · decide

/-- C5 (amended): an item token is paired with a stock row if and only if the
vertical distance between the token's center and some "stock"/"stoc" marker
token's center is STRICTLY LESS than 60px (and the token is nonempty, at least
4 characters long, and matches some target): a marker centered at y=100 with a
matching item token centered at y=130 (distance 30) pairs, while the same item
token centered at y=300 does not pair. -/
theorem stock_pairing_strict_sixty :
    (∀ (sp : List Int) (targets : List String) (w : OcrBox),
      matchEntry sp targets w ≠ [] ↔
        (pyLower (pyStrip w.text) ≠ "" ∧ 4 ≤ (pyLower (pyStrip w.text)).length ∧
         (∃ sy ∈ sp, (sy - (w.top + w.height.fdiv 2)).natAbs < 60) ∧
         ∃ t ∈ targets, matchesTarget (pyLower (pyStrip w.text)) t = true)) ∧
    find_shop_items_with_stock
      [⟨"STOCK", 0, 90, 40, 20⟩, ⟨"Carrot", 100, 120, 60, 20⟩] ["Carrot Seed"] =
      [("Carrot Seed", 130, 130)] ∧
    find_shop_items_with_stock
      [⟨"STOCK", 0, 90, 40, 20⟩, ⟨"Carrot", 100, 290, 60, 20⟩] ["Carrot Seed"] = [] := by
  refine ⟨?_, rfl, rfl⟩
  intro sp targets w
  unfold matchEntry
  dsimp only
  split
  · rename_i hskip
    simp only [ne_eq, not_true_eq_false, false_iff, not_and]
    intro hne hlen
    exact absurd hskip (by push_neg; exact ⟨hne, by omega⟩)
  · rename_i hskip
    push_neg at hskip
    split
    · rename_i hrow
      have hrow' : ∃ sy ∈ sp, (sy - (w.top + w.height.fdiv 2)).natAbs < 60 := by
        simpa [rowHasStock, List.any_eq_true] using hrow
      rcases hfind : targets.find? (fun t => matchesTarget (pyLower (pyStrip w.text)) t) with _ | t
      · simp only [ne_eq, not_true_eq_false, false_iff, not_and]
        intro _ _ _ ⟨t, hmem, hmatch⟩
        have := List.find?_eq_none.mp hfind t hmem
        exact this hmatch
      · have hmem := List.mem_of_find?_eq_some hfind
        have hmatch := List.find?_some hfind
        simp only [ne_eq, List.cons_ne_nil, not_false_eq_true, true_iff]
        exact ⟨hskip.1, by omega, hrow', t, hmem, by simpa using hmatch⟩
    · rename_i hrow
      simp only [ne_eq, not_true_eq_false, false_iff, not_and]
      intro _ _ hex
      exact absurd (by simpa [rowHasStock, List.any_eq_true] using hex : rowHasStock sp _ = true)
        hrow

/-- C5 witness: the pairing characterization applied to the matching "Carrot"
token centered at y=130 with the marker center at y=100. -/
theorem stock_pairing_strict_sixty_witness :
    matchEntry [100] ["Carrot Seed"] ⟨"Carrot", 100, 120, 60, 20⟩ ≠ [] :=
  (stock_pairing_strict_sixty.1 [100] ["Carrot Seed"] ⟨"Carrot", 100, 120, 60, 20⟩).mpr
    ⟨by decide, by decide, ⟨100, by decide, by decide⟩, "Carrot Seed", by decide, by decide⟩

/-- C3 counterexample: a detected OCR word equal to the generic category word
"seed" IS by itself sufficient to produce a result when the target list
consists only of "Seed": the exact first-word branch matches it, so the query
"Seed" pairs with every stocked row that shows a "seed" token. -/
theorem category_word_counterexample :
    find_shop_items_with_stock
      [⟨"STOCK", 0, 90, 40, 20⟩, ⟨"Seed", 100, 92, 40, 16⟩] ["Seed"] =
      [("Seed", 120, 100)] := by
  rfl

/-- C3 (amended): the generic-category-word exclusion holds for the fuzzy
pattern sets — no target's pattern list ever contains one of the category
words — and a detected token equal to "seed" matches a target if and only if
that target's first (lowercased) word is exactly "seed"; hence for
cultivar-first targets such as "Carrot Seed" a bare "seed" token on a stocked
row produces no result, but the one-word target "Seed" itself does match every
"seed" token on a stocked row. -/
theorem category_word_exclusion :
    (∀ (target p : String), p ∈ targetPatterns target →
      common_words.contains p = false) ∧
    (∀ target : String, matchesTarget "seed" target = true ↔
      (pySplit (pyLower target)).headD "" = "seed") ∧
    find_shop_items_with_stock
      [⟨"STOCK", 0, 90, 40, 20⟩, ⟨"Seed", 100, 92, 40, 16⟩] ["Carrot Seed"] = [] := by
  have hpat : ∀ (target p : String), p ∈ targetPatterns target →
      common_words.contains p = false := by
    intro target p hp
    unfold targetPatterns at hp
    rcases List.mem_flatMap.mp hp with ⟨word, _, hw⟩
    split at hw
    · rename_i hguard
      rw [Bool.and_eq_true, Bool.not_eq_true'] at hguard
      rcases List.mem_cons.mp hw with rfl | hw2
      · exact hguard.2
      · rcases List.mem_filterMap.mp hw2 with ⟨k, _, hk⟩
        dsimp only at hk
        split at hk
        · rename_i hguard2
          rw [Bool.and_eq_true, Bool.not_eq_true'] at hguard2
          cases hk
          exact hguard2.2
        · cases hk
    · cases hw
  refine ⟨hpat, ?_, rfl⟩
  intro target
  constructor
  · intro h
    unfold matchesTarget at h
    dsimp only at h
    rw [Bool.or_eq_true] at h
    rcases h with hexact | hany
    · split at hexact
      · exact (eq_of_beq hexact).symm
      · rw [Bool.and_eq_true, Bool.and_eq_true] at hexact
        have : (5 : ℕ) ≤ ("seed" : String).length := of_decide_eq_true hexact.1.1
        simp [String.length] at this
    · exfalso
      rcases List.any_eq_true.mp hany with ⟨p, hpmem, hpcond⟩
      rw [Bool.or_eq_true, Bool.and_eq_true, Bool.and_eq_true] at hpcond
      rcases hpcond with ⟨hlen, hsub⟩ | ⟨hp4, hbeq⟩
      · rw [Bool.or_eq_true, Bool.and_eq_true] at hsub
        rcases hsub with hsub | ⟨hlt, _⟩
        · -- a pattern of length ≥ 5 cannot be a substring of the 4-char "seed"
          have hle : p.data.length ≤ ("seed" : String).data.length :=
            subOf_length_le hsub
          have h5 : 5 ≤ p.length := of_decide_eq_true hlen
          have hpl : p.length = p.data.length := rfl
          simp at hle
          omega
        · have : (5 : ℕ) ≤ ("seed" : String).length := of_decide_eq_true hlt
          simp [String.length] at this
      · have hp : p = "seed" := (eq_of_beq hbeq).symm
        have hcontains := hpat target p hpmem
        rw [hp] at hcontains
        simp [common_words] at hcontains
  · intro h
    unfold matchesTarget
    dsimp only
    rw [Bool.or_eq_true]
    left
    rw [h]
    simp only [if_pos (by decide : ("seed" : String).length = 4)]
    rfl

/-- C3 witness: the exclusion and the first-word characterization applied at
concrete targets — no pattern of "Carrot Seed" is a category word (e.g.
"carrot" is in the pattern set and is not one), a "seed" token does not match
"Carrot Seed", and it does match the one-word target "Seed". -/
theorem category_word_exclusion_witness :
    common_words.contains "carrot" = false ∧
    matchesTarget "seed" "Carrot Seed" = false ∧
    matchesTarget "seed" "Seed" = true :=
  ⟨category_word_exclusion.1 "Carrot Seed" "carrot" (by decide),
   by
    have h := category_word_exclusion.2.1 "Carrot Seed"
    rcases hm : matchesTarget "seed" "Carrot Seed" with _ | _
    · rfl
    · exact absurd (h.mp hm) (by decide),
   (category_word_exclusion.2.1 "Seed").mpr (by decide)⟩

theorem subOf_refl (l : List Char) : subOf l l = true :=
  (subOf_iff l l).mpr ⟨[], [], by simp⟩

/-- Membership characterization of the fuzzy pattern set built by `find_text`:
exactly the full query words of length ≥ 4 together with their suffixes of
length ≥ 4 obtained by dropping 1-3 leading characters. -/
theorem fuzzyPatterns_mem (search_words : List String) (p : String) :
    p ∈ fuzzyPatterns search_words ↔
      ∃ w ∈ search_words, 4 ≤ w.length ∧
        (p = w ∨ ∃ k, 1 ≤ k ∧ k ≤ 3 ∧ 4 ≤ w.length - k ∧ p = ⟨w.data.drop k⟩) := by
  unfold fuzzyPatterns
  rw [List.mem_flatMap]
  constructor
  · rintro ⟨w, hw, hp⟩
    refine ⟨w, hw, ?_⟩
    split at hp
    · rename_i h4
      rcases List.mem_cons.mp hp with rfl | hp2
      · exact ⟨h4, Or.inl rfl⟩
      · rcases List.mem_filterMap.mp hp2 with ⟨k, hkmem, hk⟩
        dsimp only at hk
        split at hk
        · rename_i hklen
          cases hk
          rcases List.mem_range'_1.mp hkmem with ⟨hk1, hk2⟩
          have hdl : (⟨w.data.drop k⟩ : String).length = w.length - k := by
            show (w.data.drop k).length = w.data.length - k
            simp
          rw [hdl] at hklen
          exact ⟨h4, Or.inr ⟨k, hk1, by omega, hklen, rfl⟩⟩
        · cases hk
    · cases hp
  · rintro ⟨w, hw, h4, hpw | ⟨k, hk1, hk3, hklen, hpk⟩⟩
    · refine ⟨w, hw, ?_⟩
      rw [if_pos h4, hpw]
      exact List.mem_cons_self _ _
    · refine ⟨w, hw, ?_⟩
      rw [if_pos h4, hpk]
      refine List.mem_cons_of_mem _ (List.mem_filterMap.mpr ⟨k, ?_, ?_⟩)
      · exact List.mem_range'_1.mpr ⟨hk1, by omega⟩
      · dsimp only
        rw [if_pos]
        show 4 ≤ (w.data.drop k).length
        simpa using hklen
  
theorem fuzzyPatterns_length {sw : List String} {p : String}
    (h : p ∈ fuzzyPatterns sw) : 4 ≤ p.length := by
  rcases (fuzzyPatterns_mem sw p).mp h with ⟨w, _, h4, hpw | ⟨k, _, _, hklen, hpk⟩⟩
  · exact hpw ▸ h4
  · rw [hpk]
    show 4 ≤ (w.data.drop k).length
    simpa using hklen

theorem fuzzyPatterns_subOf {sw : List String} {p : String}
    (h : p ∈ fuzzyPatterns sw) : ∃ w ∈ sw, subOf p.data w.data = true := by
  rcases (fuzzyPatterns_mem sw p).mp h with ⟨w, hw, _, hpw | ⟨k, _, _, _, hpk⟩⟩
  · exact ⟨w, hw, hpw ▸ subOf_refl _⟩
  · exact ⟨w, hw, hpk ▸ subOf_drop _ _⟩

/-- If some detected word passes the per-word length gate and the acceptance
test, the single-word phase of `find_text` returns a box. -/
theorem findTextSingle_isSome (sl : String) (pats : List String) (fz : Bool) :
    ∀ words : List OcrBox,
      (∃ w ∈ words,
        ¬(pyLower (pyStrip w.text) = "" ∨ (pyLower (pyStrip w.text)).length < 3) ∧
        acceptsWord sl pats fz (pyLower (pyStrip w.text)) = true) →
      (findTextSingle sl pats fz words).isSome = true := by
  intro words
  induction words with
  | nil => rintro ⟨w, hw, _⟩; cases hw
  | cons u rest ih =>
    rintro ⟨w, hw, hskip, hacc⟩
    unfold findTextSingle
    dsimp only
    split
    · rename_i hskipu
      rcases List.mem_cons.mp hw with rfl | hw2
      · exact absurd hskipu hskip
      · exact ih ⟨w, hw2, hskip, hacc⟩
    · split
      · rfl
      · rename_i haccu
        rcases List.mem_cons.mp hw with rfl | hw2
        · exact absurd hacc haccu
        · exact ih ⟨w, hw2, hskip, hacc⟩

/-- If the single-word phase finds a box, `find_text` returns a box. -/
theorem find_text_of_single (words : List OcrBox) (query : String) (fz : Bool)
    (h : (findTextSingle (pyLower query)
        (if fz then fuzzyPatterns (pySplit (pyLower query)) else []) fz words).isSome = true) :
    (find_text words query fz).isSome = true := by
  unfold find_text
  dsimp only
  obtain ⟨r, hr⟩ := Option.isSome_iff_exists.mp h
  rw [hr]
  rfl

/-- C6 counterexample: the acceptance clause fails for very short detected
words: the OCR token "aw" and the fuzzy pattern "awberry" (generated for the
query "Strawberry Seed") contain each other in one direction — "aw" is a
substring of "awberry" — yet `find_text` skips detected words shorter than 3
characters and returns no match at all. -/
theorem fuzzy_match_counterexample :
    find_text [⟨"aw", 5, 7, 30, 12⟩] "Strawberry Seed" true = none ∧
    "awberry" ∈ fuzzyPatterns (pySplit (pyLower "Strawberry Seed")) ∧
    pyIn "aw" "awberry" = true := by
  refine ⟨rfl, by decide, rfl⟩

/-- C6 (amended): with fuzzy matching enabled, `find_text` builds for each
query word of length ≥ 4 a pattern set containing exactly the full word and
all its suffixes of length ≥ 4 obtained by dropping 1-3 leading characters,
and accepts a detected OCR word OF LENGTH ≥ 3 whenever it and some pattern
contain each other as substrings (either direction; detected words of length
≤ 2 are skipped); consequently querying "Strawberry Seed" against an OCR
result containing only the token "awberry" returns a match. -/
theorem fuzzy_pattern_acceptance :
    (∀ (search_words : List String) (p : String),
      p ∈ fuzzyPatterns search_words ↔
        ∃ w ∈ search_words, 4 ≤ w.length ∧
          (p = w ∨ ∃ k, 1 ≤ k ∧ k ≤ 3 ∧ 4 ≤ w.length - k ∧ p = ⟨w.data.drop k⟩)) ∧
    (∀ (words : List OcrBox) (query : String) (w : OcrBox), w ∈ words →
      3 ≤ (pyLower (pyStrip w.text)).length →
      (∃ p ∈ fuzzyPatterns (pySplit (pyLower query)),
        pyIn p (pyLower (pyStrip w.text)) = true ∨
        pyIn (pyLower (pyStrip w.text)) p = true) →
      (find_text words query true).isSome = true) ∧
    find_text [⟨"awberry", 5, 7, 50, 12⟩] "Strawberry Seed" true = some (5, 7, 50, 12) := by
  refine ⟨fuzzyPatterns_mem, ?_, rfl⟩
  rintro words query w hw hlen ⟨p, hpmem, hpdir⟩
  have hacc : acceptsWord (pyLower query) (fuzzyPatterns (pySplit (pyLower query))) true
      (pyLower (pyStrip w.text)) = true := by
    unfold acceptsWord
    rw [Bool.or_eq_true, Bool.or_eq_true]
    rcases hpdir with hsub | hsub
    · -- the pattern is contained in the detected word
      right
      rw [Bool.and_eq_true]
      refine ⟨rfl, List.any_eq_true.mpr ⟨p, hpmem, ?_⟩⟩
      rw [Bool.or_eq_true, Bool.and_eq_true]
      exact Or.inl ⟨decide_eq_true (fuzzyPatterns_length hpmem), hsub⟩
    · -- the detected word is contained in the pattern
      by_cases h4 : 4 ≤ (pyLower (pyStrip w.text)).length
      · right
        rw [Bool.and_eq_true]
        refine ⟨rfl, List.any_eq_true.mpr ⟨p, hpmem, ?_⟩⟩
        rw [Bool.or_eq_true, Bool.and_eq_true, Bool.and_eq_true]
        exact Or.inr ⟨decide_eq_true h4, hsub⟩
      · -- a 3-character word is accepted by the exact branch: it is a
        -- substring of a pattern, every pattern is a substring of a query
        -- word, and every query word is a substring of the query
        left; right
        rcases fuzzyPatterns_subOf hpmem with ⟨qw, hqw, hpq⟩
        exact subOf_trans (subOf_trans hsub hpq) (pySplit_subOf hqw)
  refine find_text_of_single words query true ?_
  refine findTextSingle_isSome _ _ _ words ⟨w, hw, ?_, hacc⟩
  push_neg
  constructor
  · intro he
    rw [he] at hlen
    simp [String.length] at hlen
  · omega

/-- C6 witness: the acceptance theorem applied to the clipped OCR token
"awberry" against the query "Strawberry Seed". -/
theorem fuzzy_pattern_acceptance_witness :
    (find_text [⟨"awberry", 5, 7, 50, 12⟩] "Strawberry Seed" true).isSome = true :=
  fuzzy_pattern_acceptance.2.1 [⟨"awberry", 5, 7, 50, 12⟩] "Strawberry Seed"
    ⟨"awberry", 5, 7, 50, 12⟩ (by decide) (by decide)
    ⟨"awberry", by decide, Or.inr (by decide)⟩
